import Mathlib

/-!
Verification development for the ObsidianTUI vault core
(internal/vault/vault.go, internal/parser/links.go, internal/parser/tags.go).

The Go code is embedded shallowly:
- strings are Lean `String`s, manipulated through their underlying `List Char`;
  positions are character indices (the Go code uses byte offsets, which agree
  with character indices on ASCII input; every positional claim here is about
  relative order, which is unaffected);
- the two regular expressions of links.go and the one of tags.go are embedded
  as deterministic left-to-right scanners that reproduce RE2's leftmost,
  non-overlapping matching for these specific patterns (for each of them the
  greedy character-class runs cannot backtrack, so matching at a position is
  deterministic);
- Go maps become association lists carrying one concrete iteration order
  (Go map iteration order is unspecified; theorems that depend on it
  quantify over the order);
- the filesystem becomes an explicit tree (for filepath.Walk) and a
  path-to-content function (for os.ReadFile / os.WriteFile);
- goroutines are not modelled: the background index build is run to
  completion as a plain function where a claim needs its result.
-/

namespace ObsidianTUI

/-! ## Character-level string helpers (ASCII-faithful models of the Go
string/filepath functions used by the vault core). -/

/-- Model of Go `unicode.IsSpace` restricted to ASCII, as used by
`strings.TrimSpace` (includes vertical tab U+000B). -/
def isSpaceTrim (c : Char) : Bool :=
  c = ' ' || c = '\t' || c = '\n' || c = '\x0b' || c = '\x0c' || c = '\r'

/-- Model of the RE2 character class `\s` ( `[\t\n\f\r ]` — note: no vertical
tab), used by the tag pattern of tags.go. -/
def isSpaceRE (c : Char) : Bool :=
  c = ' ' || c = '\t' || c = '\n' || c = '\x0c' || c = '\r'

/-- ASCII lower-casing of one character (model of what `strings.ToLower` does
on the ASCII file names and identifiers this code handles). -/
def lowerChar (c : Char) : Char :=
  if 'A' ≤ c && c ≤ 'Z' then Char.ofNat (c.toNat + 32) else c

/-- Model of Go `strings.ToLower`. -/
def lowerStr (s : String) : String :=
  (s.data.map lowerChar).asString

/-- Model of Go `strings.TrimSpace`. -/
def trimStr (s : String) : String :=
  (((s.data.dropWhile isSpaceTrim).reverse.dropWhile isSpaceTrim).reverse).asString

/-- Whether `suf` is a suffix of `s` (model of Go `strings.HasSuffix`). -/
def hasSuffixStr (s suf : String) : Bool :=
  suf.data.isSuffixOf s.data

/-- Whether `s` starts with the character `.` (the only use of
`strings.HasPrefix` in vault.go is with the literal `"."`). -/
def startsWithDot (s : String) : Bool :=
  match s.data with
  | c :: _ => c = '.'
  | [] => false

/-- Model of Go `filepath.Base` on the slash-separated relative identifiers
produced by the scanner (never empty, never with a trailing slash): the text
after the last `/`. -/
def baseName (s : String) : String :=
  (s.data.foldl (fun acc c => if c = '/' then [] else acc ++ [c]) []).asString

/-- Model of Go `filepath.Dir` on such identifiers: the text before the last
`/`, or `"."` when there is no slash. (Only ever passed to `ResolveWikiLink`,
which ignores it.) -/
def dirOf (s : String) : String :=
  if s.data.contains '/' then
    (((s.data.reverse.dropWhile (fun c => c ≠ '/')).drop 1).reverse).asString
  else "."

/-! ## parser/links.go -/

/-- parser.Link (links.go:14-20). -/
structure Link where
  target : String
  displayText : String
  startPos : Nat
  endPos : Nat
  isWikiLink : Bool
deriving Repr, DecidableEq

/-- Matching the wiki-link pattern of links.go:9 at the head of `cs`.
Returns `(target, displayText, match length)`. For this
pattern the greedy runs cannot usefully backtrack: the first run stops only
at one of the two excluded characters, so the continuation after a shorter
run is doomed; hence matching at a fixed position is deterministic. -/
def tryWikiAt (cs : List Char) : Option (List Char × List Char × Nat) :=
  match cs with
  | '[' :: '[' :: rest =>
    let r1 := rest.takeWhile (fun c => c ≠ ']' && c ≠ '|')
    if r1.isEmpty then none
    else
      match rest.drop r1.length with
      | ']' :: ']' :: _ => some (r1, r1, r1.length + 4)
      | '|' :: rest2 =>
        let r2 := rest2.takeWhile (fun c => c ≠ ']')
        if r2.isEmpty then none
        else
          match rest2.drop r2.length with
          | ']' :: ']' :: _ => some (r1, r2, r1.length + r2.length + 5)
          | _ => none
      | _ => none
  | _ => none

/-- Matching the markdown-link pattern of links.go:10 at
the head of `cs`. Returns `(target, displayText, match length)` — note the
target is the second capture group. Deterministic for the same reason as
`tryWikiAt`. -/
def tryMdAt (cs : List Char) : Option (List Char × List Char × Nat) :=
  match cs with
  | '[' :: rest =>
    let r1 := rest.takeWhile (fun c => c ≠ ']')
    if r1.isEmpty then none
    else
      match rest.drop r1.length with
      | ']' :: '(' :: rest2 =>
        let r2 := rest2.takeWhile (fun c => c ≠ ')')
        if r2.isEmpty then none
        else
          match rest2.drop r2.length with
          | ')' :: _ => some (r2, r1, r1.length + r2.length + 4)
          | _ => none
      | _ => none
  | _ => none

/-- One scanning loop of `FindAllStringSubmatchIndex` plus the result loop of
links.go:22-46 / 48-68: find the leftmost match at or after the current
position, emit it, continue right after its end. `tf` is the per-position
matcher, `wiki` the value stored in `IsWikiLink`. Fuel is the number of
characters left to examine; `extractWikiLinks`/`extractMarkdownLinks` supply
the full length, which suffices because every step consumes at least one
character. -/
def scanLinksWith (tf : List Char → Option (List Char × List Char × Nat))
    (wiki : Bool) : Nat → List Char → Nat → List Link
  | 0, _, _ => []
  | _ + 1, [], _ => []
  | fuel + 1, c :: tl, pos =>
    match tf (c :: tl) with
    | some (t, d, len) =>
      { target := t.asString, displayText := d.asString,
        startPos := pos, endPos := pos + len, isWikiLink := wiki }
        :: scanLinksWith tf wiki fuel ((c :: tl).drop len) (pos + len)
    | none => scanLinksWith tf wiki fuel tl (pos + 1)

/-- parser.ExtractWikiLinks (links.go:22-46). -/
def extractWikiLinks (content : String) : List Link :=
  scanLinksWith tryWikiAt true content.data.length content.data 0

/-- parser.ExtractMarkdownLinks (links.go:48-68). -/
def extractMarkdownLinks (content : String) : List Link :=
  scanLinksWith tryMdAt false content.data.length content.data 0

/-- parser.ExtractAllLinks (links.go:70-74): wiki links first, then markdown
links, by `append`. -/
def extractAllLinks (content : String) : List Link :=
  extractWikiLinks content ++ extractMarkdownLinks content

/-- parser.ResolveWikiLink (links.go:76-89). `currentDir` and `vaultPath` are
accepted and ignored exactly as in the source. The `takeWhile` models
`strings.SplitN(target, "#", 2)` followed by taking element 0: the prefix of
the string before its first `#`. -/
def resolveWikiLink (linkTarget _currentDir _vaultPath : String) : String :=
  let target := trimStr linkTarget
  let target :=
    if target.data.contains '#' then (target.data.takeWhile (fun c => c ≠ '#')).asString
    else target
  if hasSuffixStr target ".md" then target else target ++ ".md"

/-! ## parser/tags.go -/

/-- The character class of the tag pattern (tags.go:9): ASCII letters,
digits, underscore, hyphen and slash. -/
def isTagChar (c : Char) : Bool :=
  ('a' ≤ c && c ≤ 'z') || ('A' ≤ c && c ≤ 'Z') || ('0' ≤ c && c ≤ '9') ||
    c = '_' || c = '-' || c = '/'

/-- Matching the tag pattern at the head of `cs`;
`atStart` records whether this position is the start of the whole text (where
`^` applies). Returns `(tag name, match length)`; the match includes the
leading whitespace character when the `\s` branch applies. -/
def tryTagAt (cs : List Char) (atStart : Bool) : Option (List Char × Nat) :=
  match cs with
  | '#' :: rest =>
    if atStart then
      let r := rest.takeWhile isTagChar
      if r.isEmpty then none else some (r, 1 + r.length)
    else none
  | c :: '#' :: rest =>
    if isSpaceRE c then
      let r := rest.takeWhile isTagChar
      if r.isEmpty then none else some (r, 2 + r.length)
    else none
  | _ => none

/-- The `FindAllStringSubmatchIndex` loop over the tag pattern plus the name
extraction of tags.go:17-36 (`ExtractTags`), keeping only the names: the
positional fields of `parser.Tag` are not needed by any claim. After the
first match `^` can no longer apply, so `atStart` is false from then on. -/
def scanTags : Nat → List Char → Bool → List (List Char)
  | 0, _, _ => []
  | _ + 1, [], _ => []
  | fuel + 1, c :: tl, atStart =>
    match tryTagAt (c :: tl) atStart with
    | some (r, len) => r :: scanTags fuel ((c :: tl).drop len) false
    | none => scanTags fuel tl false

/-- First-occurrence-preserving deduplication (the `seen` map loop of
tags.go:40-48). -/
def dedupFirst (l : List String) : List String :=
  l.foldl (fun acc t => if acc.contains t then acc else acc ++ [t]) []

/-- Insertion into a lexicographically sorted list of strings. -/
def insertSorted (s : String) : List String → List String
  | [] => [s]
  | hd :: tl => if s ≤ hd then s :: hd :: tl else hd :: insertSorted s tl

/-- Model of Go `sort.Strings`: lexicographic insertion sort. -/
def sortStrings (l : List String) : List String :=
  l.foldr insertSorted []

/-- parser.ExtractUniqueTags (tags.go:38-52): extract, deduplicate keeping
first occurrences, sort. -/
def extractUniqueTags (content : String) : List String :=
  sortStrings (dedupFirst ((scanTags content.data.length content.data true).map
    List.asString))

/-! ## vault/vault.go : data model -/

/-- vault.File (vault.go:23-32). -/
structure VFile where
  path : String
  name : String
  relativePath : String
  isDir : Bool
  content : String
  links : List Link
  tags : List String
  modified : Bool
deriving Repr, DecidableEq

/-- vault.Vault (vault.go:13-21). The three Go maps are association lists
carrying one concrete iteration order; the mutex is not modelled (all
operations here are sequential). -/
structure Vault where
  path : String
  files : List (String × VFile)
  tags : List (String × List String)
  backlinks : List (String × List String)
  indexed : Bool
  indexing : Bool
deriving Repr, DecidableEq

/-- The filesystem contents seen by os.ReadFile / os.WriteFile: absolute path
to content (`none` = the read fails), plus which paths a write succeeds on. -/
structure Disk where
  contents : String → Option String
  writable : String → Bool

/-- Go map read `m[k]` (first entry with the key, in iteration order). -/
def lookupA {α : Type} : List (String × α) → String → Option α
  | [], _ => none
  | kv :: tl, k => if kv.1 == k then some kv.2 else lookupA tl k

/-- Go map write `m[k] = v` for a key already present: the entry keeps its
place in the iteration order and takes the new value. -/
def updateA {α : Type} : List (String × α) → String → α → List (String × α)
  | [], _, _ => []
  | kv :: tl, k, v => (if kv.1 == k then (kv.1, v) else kv) :: updateA tl k v

/-- Go `m[k] = append(m[k], x)` on a `map[string][]string`: appends to the
entry when the key is present, otherwise inserts a new singleton entry. -/
def appendA (m : List (String × List String)) (k x : String) :
    List (String × List String) :=
  match lookupA m k with
  | some xs => updateA m k (xs ++ [x])
  | none => m ++ [(k, [x])]

/-! ## Scanning (vault.go:64-108) -/

/-- A directory tree as filepath.Walk sees it: each entry carries its base
name; `errEntry` is an entry whose lstat fails (permission denied, broken
symlink). Children are listed in the (sorted) order Walk visits them. -/
inductive FTree where
  | file (name : String)
  | dir (name : String) (children : List FTree)
  | errEntry (name : String)

mutual

/-- Number of entries of a tree: enough fuel for `walkGo`, which pops one
work item per step. -/
def treeFuel : FTree → Nat
  | .file _ => 1
  | .errEntry _ => 1
  | .dir _ children => 1 + treeFuelList children

/-- Total number of entries of a forest. -/
def treeFuelList : List FTree → Nat
  | [] => 0
  | t :: ts => treeFuel t + treeFuelList ts

end

/-- Base name of a tree entry. -/
def nameOf : FTree → String
  | .file n => n
  | .dir n _ => n
  | .errEntry n => n

/-- The values the walk callback can return: nil, filepath.SkipDir, or a real
error (which filepath.Walk would propagate, aborting the walk). -/
inductive WalkRet where
  | nil
  | skipDir
  | err (e : String)
deriving Repr, DecidableEq

/-- The walk callback of ScanFiles (vault.go:70-107), as a function of the
accumulated file map and the callback arguments: per-entry error, base name,
relative path, directory flag. Note vault.go:71-73: a non-nil per-entry error
makes the callback return nil immediately, skipping the entry. -/
def scanWalkFn (files : List (String × VFile)) (path name relPath : String)
    (isDir : Bool) (entryErr : Option String) :
    List (String × VFile) × WalkRet :=
  match entryErr with
  | some _ => (files, .nil)
  | none =>
    if startsWithDot name then
      if isDir then (files, .skipDir) else (files, .nil)
    else if isDir then
      (files ++ [(relPath, ⟨path, name, relPath, true, "", [], [], false⟩)], .nil)
    else if hasSuffixStr (lowerStr name) ".md" then
      (files ++ [(relPath, ⟨path, name, relPath, false, "", [], [], false⟩)], .nil)
    else (files, .nil)

/-- Relative identifier of a child entry: filepath.Rel gives `"."` for the
root itself and plain slash-joined paths below it. -/
def childRel (parentRel name : String) : String :=
  if parentRel = "." then name else parentRel ++ "/" ++ name

/-- filepath.Walk driven by an explicit work list of
`(absolute path, relative path, subtree)` items, depth first, invoking
`scanWalkFn` on each entry. A `.err` callback result aborts the whole walk
and is returned (this callback never produces one — that fact is the content
of `walkGo_no_error` below); `.skipDir` on a directory skips its subtree.
Fuel only bounds the recursion; each step consumes one work item, so
`sizeOf` of the tree is always enough. -/
def walkGo : Nat → List (String × String × FTree) → List (String × VFile) →
    List (String × VFile) × Option String
  | 0, _, files => (files, none)
  | _ + 1, [], files => (files, none)
  | fuel + 1, (path, rel, t) :: rest, files =>
    match t with
    | .errEntry name =>
      match scanWalkFn files path name rel false (some "permission denied") with
      | (files', .err e) => (files', some e)
      | (files', _) => walkGo fuel rest files'
    | .file name =>
      match scanWalkFn files path name rel false none with
      | (files', .err e) => (files', some e)
      | (files', _) => walkGo fuel rest files'
    | .dir name children =>
      match scanWalkFn files path name rel true none with
      | (files', .err e) => (files', some e)
      | (files', .skipDir) => walkGo fuel rest files'
      | (files', .nil) =>
        walkGo fuel
          ((children.map (fun c => (path ++ "/" ++ nameOf c, childRel rel (nameOf c), c)))
            ++ rest) files'

/-- Vault.ScanFiles (vault.go:64-108): resets `Files` to an empty map, then
walks the tree from the vault root (relative identifier `"."`), returning
whatever error filepath.Walk returns. -/
def scanFiles (fs : FTree) (v : Vault) : Vault × Option String :=
  let r := walkGo (treeFuel fs) [(v.path, ".", fs)] []
  ({ v with files := r.1 }, r.2)

/-- Vault.Scan (vault.go:192-201), the rescan entry point: ScanFiles, then —
only on success — mark the index not ready. The asynchronous
BuildIndexAsync it spawns is modelled separately (`buildIndex`). On error the
vault keeps whatever `ScanFiles` left in `Files`. -/
def scan (fs : FTree) (v : Vault) : Vault × Option String :=
  match scanFiles fs v with
  | (v', none) => ({ v' with indexed := false }, none)
  | (v', some e) => (v', some e)

mutual

/-- Whether the walk (as ScanFiles performs it) meets an entry whose lstat
fails; entries inside skipped dot-directories are never visited. -/
def encountersErr : FTree → Bool
  | .errEntry _ => true
  | .file _ => false
  | .dir name children => !startsWithDot name && encountersErrList children

/-- Whether any tree of a forest makes the walk meet a failing entry. -/
def encountersErrList : List FTree → Bool
  | [] => false
  | t :: ts => encountersErr t || encountersErrList ts

end

/-! ## Resolution (vault.go:173-190, 251-271) -/

/-- Vault.findFileInternal (vault.go:173-190). The Go function receives the
`Files` map and iterates its keys, never reading the values, so it is
embedded over the key list (one iteration order). Pass 1 compares each
identifier's lower-cased base name with the whole lower-cased `name`
argument; pass 2 compares the whole identifier. -/
def findFileInternal (files : List String) (name : String) : String :=
  let n := lowerStr name
  match files.find? (fun relPath => lowerStr (baseName relPath) == n) with
  | some p => p
  | none =>
    match files.find? (fun relPath => lowerStr relPath == n) with
    | some p => p
    | none => ""

/-- Vault.FindFile (vault.go:251-271): the same two passes as
findFileInternal, over the vault's current catalog, with no normalization of
`name`. -/
def findFile (v : Vault) (name : String) : String :=
  findFileInternal (v.files.map Prod.fst) name

/-- The §4.3 resolution pipeline as the index builder runs it: normalize the
raw target with ResolveWikiLink, then match it against the catalogued
identifiers with findFileInternal. -/
def resolveAgainstCatalog (catalog : List String) (raw : String) : String :=
  findFileInternal catalog (resolveWikiLink raw "" "")

/-! ## Reads and writes (vault.go:203-249, 273-293) -/

/-- Decidable equality of Except results, so that concrete read outcomes can
be settled by evaluation. -/
instance exceptDecEq {ε α : Type} [DecidableEq ε] [DecidableEq α] :
    DecidableEq (Except ε α)
  | .error e, .error e' =>
    if h : e = e' then .isTrue (congrArg Except.error h)
    else .isFalse (fun c => h (Except.error.inj c))
  | .error _, .ok _ => .isFalse (fun c => Except.noConfusion c)
  | .ok _, .error _ => .isFalse (fun c => Except.noConfusion c)
  | .ok a, .ok a' =>
    if h : a = a' then .isTrue (congrArg Except.ok h)
    else .isFalse (fun c => h (Except.ok.inj c))

/-- Error value standing for Go os.ErrNotExist. -/
def errNotExist : String := "file does not exist"

/-- Error value standing for a failed filesystem read/write. -/
def errIO : String := "i/o error"

/-- Vault.ReadFile (vault.go:203-226): cached content if non-empty, else a
disk read whose result is cached. Returns the result together with the
updated vault. -/
def readFile (v : Vault) (d : Disk) (relPath : String) :
    Except String String × Vault :=
  match lookupA v.files relPath with
  | none => (.error errNotExist, v)
  | some f =>
    if f.content ≠ "" then (.ok f.content, v)
    else
      match d.contents f.path with
      | none => (.error errIO, v)
      | some c =>
        (.ok c, { v with files := updateA v.files relPath ({ f with content := c }) })

/-- Vault.WriteFile (vault.go:228-249): persist to disk, then update the
entry's content, clear its modified flag and synchronously re-extract its
links and tags. Returns (error, vault, disk). -/
def writeFile (v : Vault) (d : Disk) (relPath content : String) :
    Option String × Vault × Disk :=
  match lookupA v.files relPath with
  | none => (some errNotExist, v, d)
  | some f =>
    if d.writable f.path then
      let f' := { f with content := content, modified := false,
                         links := extractAllLinks content,
                         tags := extractUniqueTags content }
      (none,
       { v with files := updateA v.files relPath f' },
       { d with contents := fun p => if p = f.path then some content else d.contents p })
    else (some errIO, v, d)

/-- Vault.GetBacklinks (vault.go:273-282): a sorted copy of the backlink
entry, empty when absent. -/
def getBacklinks (v : Vault) (relPath : String) : List String :=
  sortStrings ((lookupA v.backlinks relPath).getD [])

/-- Vault.GetFilesWithTag (vault.go:284-293): a sorted copy of the tag-index
entry, empty when absent. -/
def getFilesWithTag (v : Vault) (tag : String) : List String :=
  sortStrings ((lookupA v.tags tag).getD [])

/-! ## Index building (vault.go:110-171) -/

/-- The guarded per-file write-back of vault.go:143-148: if the key is still
in `Files`, store the freshly extracted links and tags on its entry. -/
def updateFileFields (v : Vault) (relPath : String) (links : List Link)
    (tags : List String) : Vault :=
  match lookupA v.files relPath with
  | some f =>
    { v with files := updateA v.files relPath ({ f with links := links, tags := tags }) }
  | none => v

/-- Vault.BuildIndexAsync (vault.go:110-171) run to completion: bail out if a
build is in flight or done; snapshot the file map; for each non-directory
entry read its content from disk (skipping it on error), extract links and
tags, write them back onto the entry, fold the tags into a fresh tag map and
the resolved wiki links into a fresh backlink map; finally install both maps
and mark the vault indexed. The transient `indexing=true` window has no
observable effect in this sequential model. -/
def buildIndex (v : Vault) (d : Disk) : Vault :=
  if v.indexing || v.indexed then v
  else
    let snapshot := v.files
    let step := fun (acc : Vault × List (String × List String) × List (String × List String))
        (kv : String × VFile) =>
      if kv.2.isDir then acc
      else
        match d.contents kv.2.path with
        | none => acc
        | some contentStr =>
          let links := extractAllLinks contentStr
          let fileTags := extractUniqueTags contentStr
          let vv := updateFileFields acc.1 kv.1 links fileTags
          let tagsM := fileTags.foldl (fun m tag => appendA m tag kv.1) acc.2.1
          let backM := links.foldl (fun m link =>
            if link.isWikiLink then
              let targetName := resolveWikiLink link.target (dirOf kv.1) v.path
              let targetPath := findFileInternal (snapshot.map Prod.fst) targetName
              if targetPath ≠ "" then appendA m targetPath kv.1 else m
            else m) acc.2.2
          (vv, tagsM, backM)
    let r := snapshot.foldl step (v, [], [])
    { r.1 with tags := r.2.1, backlinks := r.2.2, indexed := true, indexing := false }

/-- A vault as NewVault constructs it before scanning (vault.go:48-53). -/
def initVault (absPath : String) : Vault :=
  { path := absPath, files := [], tags := [], backlinks := [], indexed := false,
    indexing := false }

/-- NewVault (vault.go:34-62) followed by its background BuildIndexAsync run
to completion: fail unless the root is a directory, scan synchronously
(failing when the scan fails), then build. -/
def openThenBuild (rootTree : FTree) (d : Disk) (absPath : String) : Option Vault :=
  match rootTree with
  | .dir _ _ =>
    match scanFiles rootTree (initVault absPath) with
    | (v, none) => some (buildIndex v d)
    | (_, some _) => none
  | _ => none

/-! ## Concrete scenarios used by the claims -/

/-- The vault tree of the end-to-end scenario (§8.10): `a.md` and `b.md`
directly under the root. -/
def c1Tree : FTree := .dir "vault" [.file "a.md", .file "b.md"]

/-- Disk contents of the end-to-end scenario. -/
def c1Disk : Disk :=
  { contents := fun p =>
      if p = "/vault/a.md" then some "See [[b]] and #project"
      else if p = "/vault/b.md" then some "no links" else none,
    writable := fun _ => true }

/-- The vault after Open on the scenario tree and the background build has
completed. -/
def c1Vault : Vault := buildIndex (scanFiles c1Tree (initVault "/vault")).1 c1Disk

/-- A tree whose walk meets a per-entry error (`bad.md` cannot be lstat-ed)
before a healthy entry. -/
def c2Tree : FTree := .dir "vault" [.errEntry "bad.md", .file "a.md"]

/-- A catalogued document with cached content, for the rescan-failure
scenario. -/
def c3File : VFile :=
  { path := "/vault/old.md", name := "old.md", relativePath := "old.md",
    isDir := false, content := "hello", links := [], tags := [], modified := false }

/-- A ready vault whose catalog holds `old.md`, before a rescan. -/
def c3Vault : Vault :=
  { path := "/vault", files := [("old.md", c3File)], tags := [],
    backlinks := [("old.md", ["x.md"])], indexed := true, indexing := false }

/-- A rescan tree on which the only entry errors mid-walk. -/
def c3Tree : FTree := .dir "vault" [.errEntry "old.md"]

/-- A disk on which every read and write fails. -/
def c3Disk : Disk := { contents := fun _ => none, writable := fun _ => false }

/-- Stated from the claim C4 wording of §4.3: pass 1 compares the
identifier's base name against the normalized target's **base name**
(case-insensitively); pass 2 compares full identifiers; otherwise empty.
To be compared with `resolveAgainstCatalog`, the pipeline the code runs. -/
def resolveSpecPass1BaseVsBase (catalog : List String) (raw : String) : String :=
  let t := resolveWikiLink raw "" ""
  match catalog.find? (fun id => lowerStr (baseName id) == lowerStr (baseName t)) with
  | some p => p
  | none =>
    match catalog.find? (fun id => lowerStr id == lowerStr t) with
    | some p => p
    | none => ""

/-- The amended §4.3 description: pass 1 compares the identifier's base name
against the **whole** normalized target (case-insensitively); pass 2
compares full identifiers; otherwise empty. -/
def resolveTwoPassSpec (catalog : List String) (raw : String) : String :=
  let t := lowerStr (resolveWikiLink raw "" "")
  match catalog.find? (fun id => lowerStr (baseName id) == t) with
  | some p => p
  | none => ((catalog.find? (fun id => lowerStr id == t)).getD "")

/-- A catalogued document with non-empty cached content, for write/read and
cache witnesses. -/
def wFile : VFile :=
  { path := "/v/w.md", name := "w.md", relativePath := "w.md", isDir := false,
    content := "old", links := [], tags := [], modified := false }

/-- A small ready vault holding `w.md` plus a tag and a backlink entry. -/
def wVault : Vault :=
  { path := "/v", files := [("w.md", wFile)], tags := [("t", ["w.md"])],
    backlinks := [("w.md", ["z.md"])], indexed := true, indexing := false }

/-- A disk on which every write succeeds. -/
def wDisk : Disk :=
  { contents := fun p => if p = "/v/w.md" then some "old" else none,
    writable := fun _ => true }

/-- A catalogued document whose cached content is the empty string. -/
def eFile : VFile :=
  { path := "/v/e.md", name := "e.md", relativePath := "e.md", isDir := false,
    content := "", links := [], tags := [], modified := false }

/-- A vault holding only the empty-content document. -/
def eVault : Vault :=
  { path := "/v", files := [("e.md", eFile)], tags := [], backlinks := [],
    indexed := true, indexing := false }

/-- A disk on which `e.md` is an empty file. -/
def eDisk : Disk :=
  { contents := fun p => if p = "/v/e.md" then some "" else none,
    writable := fun _ => false }

/-! ## Helper lemmas -/

/-- Reading back the key just written into an association list. -/
theorem lookupA_updateA_self {α : Type} (m : List (String × α)) (k : String)
    (x v : α) (h : lookupA m k = some x) : lookupA (updateA m k v) k = some v := by
  induction m with
  | nil => simp [lookupA] at h
  | cons kv tl ih =>
    by_cases hk : kv.1 = k
    · simp [lookupA, updateA, hk]
    · simp only [lookupA, updateA, beq_iff_eq, hk, if_false] at h ⊢
      exact ih h

/-- Reading any other key after a write into an association list. -/
theorem lookupA_updateA_ne {α : Type} (m : List (String × α)) (k k' : String)
    (v : α) (h : k' ≠ k) : lookupA (updateA m k v) k' = lookupA m k' := by
  induction m with
  | nil => simp [updateA]
  | cons kv tl ih =>
    by_cases hk : kv.1 = k
    · have hkk : k ≠ k' := fun e => h e.symm
      simp [lookupA, updateA, hk, hkk, ih]
    · simp only [lookupA, updateA, beq_iff_eq, hk, if_false]
      by_cases hq : kv.1 = k'
      · simp [lookupA, hq]
      · simp [lookupA, hq, ih]

/-- The ScanFiles walk callback never returns an error value: a per-entry
error is answered with nil (vault.go:71-73) and every other branch returns
nil or SkipDir. -/
theorem scanWalkFn_ret (files : List (String × VFile)) (path name relPath : String)
    (isDir : Bool) (entryErr : Option String) :
    (scanWalkFn files path name relPath isDir entryErr).2 = WalkRet.nil ∨
    (scanWalkFn files path name relPath isDir entryErr).2 = WalkRet.skipDir := by
  unfold scanWalkFn
  cases entryErr with
  | some e => simp
  | none =>
    by_cases h1 : startsWithDot name = true <;> by_cases h2 : isDir = true <;>
      by_cases h3 : hasSuffixStr (lowerStr name) ".md" = true <;>
      simp [h1, h2, h3]

/-- The walk as ScanFiles drives it never returns an error, whatever tree it
is given: the callback swallows per-entry errors. -/
theorem walkGo_no_error : ∀ (fuel : Nat) (wl : List (String × String × FTree))
    (files : List (String × VFile)), (walkGo fuel wl files).2 = none := by
  intro fuel
  induction fuel with
  | zero => intro wl files; rfl
  | succ n ih =>
    intro wl files
    cases wl with
    | nil => rfl
    | cons hd rest =>
      obtain ⟨path, rel, t⟩ := hd
      cases t with
      | errEntry name =>
        simp only [walkGo]
        split
        · next files' e heq =>
            rcases scanWalkFn_ret files path name rel false (some "permission denied")
              with h2 | h2 <;> rw [heq] at h2 <;> simp at h2
        · next => exact ih _ _
      | file name =>
        simp only [walkGo]
        split
        · next files' e heq =>
            rcases scanWalkFn_ret files path name rel false none
              with h2 | h2 <;> rw [heq] at h2 <;> simp at h2
        · next => exact ih _ _
      | dir name children =>
        simp only [walkGo]
        split
        · next files' e heq =>
            rcases scanWalkFn_ret files path name rel true none
              with h2 | h2 <;> rw [heq] at h2 <;> simp at h2
        · next => exact ih _ _
        · next => exact ih _ _

/-- ScanFiles never returns an error. -/
theorem scanFiles_no_error (fs : FTree) (v : Vault) : (scanFiles fs v).2 = none := by
  simp [scanFiles, walkGo_no_error]

/-- Scan (the rescan entry point) always takes its success branch: it
replaces the catalog with the fresh walk result and clears `indexed`. -/
theorem scan_eq (fs : FTree) (v : Vault) :
    scan fs v = ({ (scanFiles fs v).1 with indexed := false }, none) := by
  unfold scan
  have h := scanFiles_no_error fs v
  rcases hs : scanFiles fs v with ⟨v', err⟩
  rw [hs] at h
  simp only at h
  subst h
  rfl

/-- Every link a scanning loop emits carries the tag of its pattern. -/
theorem scanLinksWith_tag (tf : List Char → Option (List Char × List Char × Nat))
    (wiki : Bool) : ∀ (fuel : Nat) (cs : List Char) (pos : Nat),
    (scanLinksWith tf wiki fuel cs pos).all (fun l => l.isWikiLink == wiki) = true := by
  intro fuel
  induction fuel with
  | zero => intro cs pos; rfl
  | succ n ih =>
    intro cs pos
    cases cs with
    | nil => rfl
    | cons c tl =>
      simp only [scanLinksWith]
      cases h : tf (c :: tl) with
      | none => exact ih tl (pos + 1)
      | some x =>
        obtain ⟨t, d, len⟩ := x
        simp only [List.all_cons, beq_self_eq_true, Bool.true_and]
        exact ih _ _

/-- Every link a scanning loop emits starts at or after the loop's current
position. -/
theorem scanLinksWith_ge (tf : List Char → Option (List Char × List Char × Nat))
    (wiki : Bool) : ∀ (fuel : Nat) (cs : List Char) (pos : Nat) (l : Link),
    l ∈ scanLinksWith tf wiki fuel cs pos → pos ≤ l.startPos := by
  intro fuel
  induction fuel with
  | zero => intro cs pos l hl; simp [scanLinksWith] at hl
  | succ n ih =>
    intro cs pos l hl
    cases cs with
    | nil => simp [scanLinksWith] at hl
    | cons c tl =>
      simp only [scanLinksWith] at hl
      cases h : tf (c :: tl) with
      | none =>
        rw [h] at hl
        exact Nat.le_of_succ_le (ih tl (pos + 1) l hl)
      | some x =>
        obtain ⟨t, d, len⟩ := x
        rw [h] at hl
        rcases List.mem_cons.1 hl with rfl | hl'
        · exact Nat.le_refl _
        · exact Nat.le_trans (Nat.le_add_right pos len) (ih _ _ l hl')

/-- The links a scanning loop emits come in nondecreasing start-position
(document) order. -/
theorem scanLinksWith_sorted (tf : List Char → Option (List Char × List Char × Nat))
    (wiki : Bool) : ∀ (fuel : Nat) (cs : List Char) (pos : Nat),
    List.Chain' (fun a b => a.startPos ≤ b.startPos)
      (scanLinksWith tf wiki fuel cs pos) := by
  intro fuel
  induction fuel with
  | zero => intro cs pos; simp [scanLinksWith]
  | succ n ih =>
    intro cs pos
    cases cs with
    | nil => simp [scanLinksWith]
    | cons c tl =>
      simp only [scanLinksWith]
      cases h : tf (c :: tl) with
      | none => exact ih tl (pos + 1)
      | some x =>
        obtain ⟨t, d, len⟩ := x
        refine List.chain'_cons'.2 ⟨fun y hy => ?_, ih _ _⟩
        have hym := List.mem_of_mem_head? hy
        exact Nat.le_trans (Nat.le_add_right pos len)
          (scanLinksWith_ge tf wiki n _ _ y hym)

/-! ## The claims -/

/-- Claim C1, counterexample: in the end-to-end scenario (vault with `a.md`
"See [[b]] and #project" and `b.md` "no links", after Open and the
background build), `FindFile("b")` does not return `"b.md"` as the claim
states — FindFile applies no normalization, so the extensionless name
matches nothing and the result is the empty string. -/
theorem c1_findFile_counterexample :
    findFile c1Vault "b" = "" ∧ findFile c1Vault "b" ≠ "b.md" := by decide

/-- Claim C1 (amended): in the end-to-end scenario, after Open and the
background build have completed, `GetFilesWithTag("project")` is exactly
`["a.md"]`, `GetBacklinks("b.md")` is exactly `["a.md"]`,
`GetBacklinks("a.md")` is empty, and `FindFile("b.md")` is `"b.md"`;
`FindFile` performs only the two matching passes without the Resolver's
normalization, so `FindFile("b")` is `""` while the full §4.3 pipeline
(normalize, then match) does take `"b"` to `"b.md"`. -/
theorem c1_end_to_end_amended :
    (scanFiles c1Tree (initVault "/vault")).2 = none ∧
    openThenBuild c1Tree c1Disk "/vault" = some c1Vault ∧
    getFilesWithTag c1Vault "project" = ["a.md"] ∧
    getBacklinks c1Vault "b.md" = ["a.md"] ∧
    getBacklinks c1Vault "a.md" = [] ∧
    findFile c1Vault "b.md" = "b.md" ∧
    findFile c1Vault "b" = "" ∧
    resolveAgainstCatalog (c1Vault.files.map Prod.fst) "b" = "b.md" := by decide

/-- Claim C2, counterexample: a walk that meets a per-entry error does not
abort — ScanFiles returns no error and produces a catalog that silently
omits the failing entry (`bad.md`) while still containing the entry walked
after it (`a.md`), i.e. a partial catalog. -/
theorem c2_partial_catalog_counterexample :
    encountersErr c2Tree = true ∧
    (scanFiles c2Tree (initVault "/vault")).2 = none ∧
    (scanFiles c2Tree (initVault "/vault")).1.files.map Prod.fst = [".", "a.md"] := by
  decide

/-- Claim C2 (amended): a per-entry filesystem error never aborts the scan:
the walk callback answers every per-entry error with nil, so ScanFiles
returns no error for any tree and any vault state; the errored entry is
simply left out of the catalog and the walk continues. -/
theorem c2_scan_swallows_errors :
    ∀ (fs : FTree) (v : Vault), (scanFiles fs v).2 = none :=
  scanFiles_no_error

/-- Claim C3, counterexample: when Rescan meets a filesystem error mid-walk
it does not keep the old catalog: the scan completes without error and the
catalog is replaced by the partial walk result, so a ReadFile that succeeded
before the rescan (`old.md`, served from cache) fails afterwards. -/
theorem c3_rescan_counterexample :
    encountersErr c3Tree = true ∧
    (scan c3Tree c3Vault).2 = none ∧
    (readFile c3Vault c3Disk "old.md").1 = Except.ok "hello" ∧
    (readFile (scan c3Tree c3Vault).1 c3Disk "old.md").1 = Except.error errNotExist ∧
    (scan c3Tree c3Vault).1.files ≠ c3Vault.files := by decide

/-- Claim C3 (amended): Rescan never returns an error (per-entry errors are
swallowed mid-walk), and on every call it replaces the catalog with the
fresh (possibly partial) scan result while leaving the derived tag and
backlink indexes untouched until the next build, marking the index not
ready. The error case of the claim is unreachable. -/
theorem c3_rescan_amended :
    ∀ (fs : FTree) (v : Vault),
    (scan fs v).2 = none ∧
    (scan fs v).1.tags = v.tags ∧
    (scan fs v).1.backlinks = v.backlinks ∧
    (scan fs v).1.files = (scanFiles fs v).1.files ∧
    (scan fs v).1.indexed = false := by
  intro fs v
  rw [scan_eq]
  exact ⟨rfl, rfl, rfl, rfl, rfl⟩

/-- Claim C4, counterexample: resolution as the code runs it (normalize,
then findFileInternal) disagrees with the claim's description of pass 1
(base name against base name): for catalog `["sub/x.md"]` and raw target
`"other/x"`, the code resolves to nothing while the described algorithm
would return `"sub/x.md"` in pass 1. -/
theorem c4_pass1_counterexample :
    resolveAgainstCatalog ["sub/x.md"] "other/x" = "" ∧
    resolveSpecPass1BaseVsBase ["sub/x.md"] "other/x" = "sub/x.md" ∧
    resolveAgainstCatalog ["sub/x.md"] "other/x" ≠
      resolveSpecPass1BaseVsBase ["sub/x.md"] "other/x" := by decide

/-- Claim C4 (amended): resolution first normalizes the raw target (trim
whitespace, truncate at the first `#`, append `.md` when absent), then pass
1 returns the first catalogued identifier whose base name matches the whole
normalized target case-insensitively; only if pass 1 finds nothing does
pass 2 return the first identifier whose full identifier matches; otherwise
the result is empty. -/
theorem c4_two_pass_amended :
    ∀ (catalog : List String) (raw : String),
    resolveAgainstCatalog catalog raw = resolveTwoPassSpec catalog raw := by
  intro c raw
  simp only [resolveAgainstCatalog, findFileInternal, resolveTwoPassSpec]
  cases h1 : c.find? (fun id => lowerStr (baseName id) == lowerStr (resolveWikiLink raw "" "")) with
  | some p => simp [h1]
  | none =>
    cases h2 : c.find? (fun id => lowerStr id == lowerStr (resolveWikiLink raw "" "")) with
    | some p => simp [h1, h2]
    | none => simp [h1, h2]

/-- Claim C5: over the catalog with identifiers `a/x.md` and `b/x.md` (in
either iteration order), resolving `"x"` yields one of the two (and is not
unresolved), resolving `"a/x"` yields exactly `a/x.md`, and resolving
`"nonexistent"` is unresolved (empty). -/
theorem c5_resolver_examples (l : List String)
    (h : l = ["a/x.md", "b/x.md"] ∨ l = ["b/x.md", "a/x.md"]) :
    (resolveAgainstCatalog l "x" = "a/x.md" ∨ resolveAgainstCatalog l "x" = "b/x.md") ∧
    resolveAgainstCatalog l "x" ≠ "" ∧
    resolveAgainstCatalog l "a/x" = "a/x.md" ∧
    resolveAgainstCatalog l "nonexistent" = "" := by
  rcases h with rfl | rfl <;> decide

/-- Witness for C5 at the concrete iteration order `["a/x.md", "b/x.md"]`. -/
theorem c5_resolver_examples_witness :
    resolveAgainstCatalog ["a/x.md", "b/x.md"] "a/x" = "a/x.md" :=
  (c5_resolver_examples ["a/x.md", "b/x.md"] (Or.inl rfl)).2.2.1

/-- Claim C6: for every catalogued document and every content, a successful
WriteFile followed immediately by ReadFile returns exactly that content, and
the document's stored tags and links equal ExtractUniqueTags and
ExtractAllLinks of the new content — before any rescan. -/
theorem c6_write_read_roundtrip (v : Vault) (d : Disk) (id content : String)
    (f : VFile) (hf : lookupA v.files id = some f)
    (hw : d.writable f.path = true) :
    (writeFile v d id content).1 = none ∧
    (readFile (writeFile v d id content).2.1 (writeFile v d id content).2.2 id).1 =
      Except.ok content ∧
    lookupA (writeFile v d id content).2.1.files id =
      some ({ f with content := content, modified := false,
                     links := extractAllLinks content,
                     tags := extractUniqueTags content }) := by
  simp only [writeFile, hf, hw, if_true]
  refine ⟨by trivial, ?_, ?_⟩
  · simp only [readFile,
      lookupA_updateA_self v.files id f _ hf]
    by_cases hc : content = ""
    · subst hc
      simp
    · simp [hc]
  · exact lookupA_updateA_self v.files id f _ hf

/-- Witness for C6: writing `"new #tag"` into the small concrete vault and
reading it back. -/
theorem c6_write_read_roundtrip_witness :
    (readFile (writeFile wVault wDisk "w.md" "new #tag").2.1
      (writeFile wVault wDisk "w.md" "new #tag").2.2 "w.md").1 =
      Except.ok "new #tag" :=
  (c6_write_read_roundtrip wVault wDisk "w.md" "new #tag" wFile
    (by decide) (by decide)).2.1

/-- Claim C7: WriteFile never touches the vault-level tag and backlink
indexes — GetFilesWithTag and GetBacklinks answer identically for every key
before and after the write — and every catalog entry other than the written
one is unchanged. -/
theorem c7_write_frame (v : Vault) (d : Disk) (id content : String) :
    (writeFile v d id content).2.1.tags = v.tags ∧
    (writeFile v d id content).2.1.backlinks = v.backlinks ∧
    (∀ t, getFilesWithTag (writeFile v d id content).2.1 t = getFilesWithTag v t) ∧
    (∀ p, getBacklinks (writeFile v d id content).2.1 p = getBacklinks v p) ∧
    (∀ k, k ≠ id → lookupA (writeFile v d id content).2.1.files k = lookupA v.files k) := by
  have base : (writeFile v d id content).2.1.tags = v.tags ∧
      (writeFile v d id content).2.1.backlinks = v.backlinks ∧
      (∀ k, k ≠ id → lookupA (writeFile v d id content).2.1.files k = lookupA v.files k) := by
    simp only [writeFile]
    cases hf : lookupA v.files id with
    | none => exact ⟨by trivial, by trivial, fun k _ => by trivial⟩
    | some f =>
      by_cases hw : d.writable f.path = true
      · simp only [hw, if_true]
        exact ⟨by trivial, by trivial, fun k hk => by
          simpa using lookupA_updateA_ne v.files id k _ hk⟩
      · simp only [Bool.not_eq_true] at hw
        simp only [hw, Bool.false_eq_true, if_false]
        exact ⟨by trivial, by trivial, fun k _ => by trivial⟩
  refine ⟨base.1, base.2.1, ?_, ?_, base.2.2⟩
  · intro t
    simp only [getFilesWithTag, base.1]
  · intro p
    simp only [getBacklinks, base.2.1]

/-- Claim C8: ExtractAllLinks returns all wiki-style matches first, in
nondecreasing document position order, followed by all markdown-style
matches, also in document order, never merged by position, each tagged with
its style. -/
theorem c8_link_order (content : String) :
    extractAllLinks content = extractWikiLinks content ++ extractMarkdownLinks content ∧
    List.Chain' (fun a b => a.startPos ≤ b.startPos) (extractWikiLinks content) ∧
    List.Chain' (fun a b => a.startPos ≤ b.startPos) (extractMarkdownLinks content) ∧
    (extractWikiLinks content).all (fun l => l.isWikiLink == true) = true ∧
    (extractMarkdownLinks content).all (fun l => l.isWikiLink == false) = true := by
  refine ⟨rfl, ?_, ?_, ?_, ?_⟩
  · exact scanLinksWith_sorted tryWikiAt true _ _ _
  · exact scanLinksWith_sorted tryMdAt false _ _ _
  · exact scanLinksWith_tag tryWikiAt true _ _ _
  · exact scanLinksWith_tag tryMdAt false _ _ _

/-- Claim C10: ReadFile serves from the cache only when the cached content
is non-empty; on a document whose cached content is empty every call reads
the disk afresh, and when the file on disk is empty the call returns the
empty string without error and the entry's cached content stays empty. -/
theorem c10_empty_cache (v : Vault) (d : Disk) (id : String) (f : VFile)
    (hf : lookupA v.files id = some f) :
    (f.content ≠ "" → readFile v d id = (Except.ok f.content, v)) ∧
    (f.content = "" → (readFile v d id).1 = (match d.contents f.path with
        | some c => Except.ok c
        | none => Except.error errIO)) ∧
    (f.content = "" → d.contents f.path = some "" →
      (readFile v d id).1 = Except.ok "" ∧
      lookupA (readFile v d id).2.files id = some f) := by
  refine ⟨?_, ?_, ?_⟩
  · intro hne
    simp [readFile, hf, hne]
  · intro hc
    simp only [readFile, hf, hc, ne_eq, not_true_eq_false, if_false]
    cases hd : d.contents f.path <;> simp
  · intro hc hd
    have hff : ({ f with content := "" } : VFile) = f := by
      cases f
      simp only at hc
      simp [hc]
    simp only [readFile, hf, hc, ne_eq, not_true_eq_false, if_false, hd, hff]
    exact ⟨by trivial, by simpa using lookupA_updateA_self v.files id f f hf⟩

/-- Witness for C10 on the concrete vault whose only document has empty
cached content and an empty file on disk. -/
theorem c10_empty_cache_witness :
    (readFile eVault eDisk "e.md").1 = Except.ok "" ∧
    lookupA (readFile eVault eDisk "e.md").2.files "e.md" = some eFile :=
  (c10_empty_cache eVault eDisk "e.md" eFile (by decide)).2.2 rfl (by decide)

end ObsidianTUI
